import Mathlib

/-!
Shallow embedding of the property-synchronization engine of
`src/devices/humidifier.ts` (class `BaseHumidifier`) from the
`homebridge-mi-humidifier-globals` repository.

JavaScript primitive device-property values (`string | number | boolean`)
become `PrimitiveType`; `null`/`undefined` is the `none` of
`Option PrimitiveType`.  Characteristic values (`hb.CharacteristicValue`)
are likewise `Option PrimitiveType` (`CharValue`).  Stateful methods are
explicit state-passing functions that additionally return a list of
`Effect`s recording every externally observable action (device-protocol
calls, characteristic pushes, hook invocations, callbacks, history-log
operations), so that "never invokes a device call" is a statement about
the trace.  Thrown JS exceptions are `Except JsError`.
-/

namespace Humidifier

/-- JS primitive value: `string | number | boolean`.  JS numbers are
modelled as integers (every value the engine manipulates in the claims is
integral). -/
inductive PrimitiveType where
  | str (s : String)
  | num (n : Int)
  | bool (b : Bool)
  deriving DecidableEq, Repr

/-- `hb.CharacteristicValue`, with `none` standing for JS `null`/`undefined`. -/
abbrev CharValue := Option PrimitiveType

/-- JS truthiness of a primitive value: `0`, `false` and `""` are falsy. -/
def PrimitiveType.truthy : PrimitiveType → Bool
  | .str s => s ≠ ""
  | .num n => n ≠ 0
  | .bool b => b

/-- JS truthiness of a possibly-null value (`null`/`undefined` are falsy). -/
def CharValue.truthy : CharValue → Bool
  | none => false
  | some v => v.truthy

/-- A JS exception value. -/
inductive JsError where
  /-- `miio.ProtocolError` (invalid token). -/
  | protocolError (msg : String)
  /-- any other error. -/
  | error (msg : String)
  deriving DecidableEq, Repr

/-- The device property cache / the mapping returned by
`protocol.getProps`: an association of property keys to primitive
values.  `this.cache[key]` is `lookupProp`. -/
abbrev PropsMap := List (String × PrimitiveType)

/-- JS property access `m[key]` (`undefined` when absent, i.e. `none`). -/
def lookupProp (m : PropsMap) (key : String) : Option PrimitiveType :=
  (m.find? (fun p => p.1 = key)).map (·.2)

/-- One time-series history entry: a timestamp (seconds) plus named
integer fields.  A field holds `none` when the JS `parseInt` produced
`NaN`. -/
structure Entry where
  time : Nat
  fields : List (String × Option Int)
  deriving DecidableEq, Repr

/-- `entry[key] = v` : JS property assignment on an entry object
(replaces the field if present, otherwise appends it). -/
def Entry.setField (e : Entry) (key : String) (v : Option Int) : Entry :=
  if (e.fields.find? (fun p => p.1 = key)).isSome then
    { e with fields := e.fields.map (fun p => if p.1 = key then (key, v) else p) }
  else
    { e with fields := e.fields ++ [(key, v)] }

/-- `entry[key]` read access. -/
def Entry.getField (e : Entry) (key : String) : Option (Option Int) :=
  (e.fields.find? (fun p => p.1 = key)).map (·.2)

/-- Modelled from the spec: the History Log collaborator
(`EveHistoryService`, `src/lib/eve-history`, not part of the sources).
Per the spec it is an append-only per-channel store of timestamped
entries exposing `getCurrentEntry(channel) -> Entry | absent` and
`appendOrUpdateEntry(channel, Entry)`, with one live record ("current
open entry") per channel and entries merged by recency.  The state maps
each channel id to its entry list, most recent first. -/
abbrev HistoryState := List (String × List Entry)

/-- The entry log of a channel (empty when the channel is unknown). -/
def channelLog (h : HistoryState) (ch : String) : List Entry :=
  ((h.find? (fun p => p.1 = ch)).map (·.2)).getD []

/-- Replace the entry log of a channel. -/
def setChannelLog (h : HistoryState) (ch : String) (log : List Entry) : HistoryState :=
  if (h.find? (fun p => p.1 = ch)).isSome then
    h.map (fun p => if p.1 = ch then (ch, log) else p)
  else
    h ++ [(ch, log)]

/-- Modelled from the spec: `getCurrentEntry` — the channel's current
open entry, absent when the channel has no entry yet
(`historyService.getLastEntry()`). -/
def getLastEntry (h : HistoryState) (ch : String) : Option Entry :=
  (channelLog h ch).head?

/-- Modelled from the spec: `appendOrUpdateEntry`
(`historyService.addEntry(entry)`) — updates the channel's current open
entry when one exists (entries are merged by recency), otherwise appends
the first entry. -/
def addEntry (h : HistoryState) (ch : String) (e : Entry) : HistoryState :=
  setChannelLog h ch
    (match channelLog h ch with
     | [] => [e]
     | _ :: rest => e :: rest)

/-- JS `parseInt(" " + result.valueOf())` used when a history field is
recorded: a number parses to itself, a string to its leading integer
(after the blank), anything else is `NaN` (`none`). -/
def parseIntJS : CharValue → Option Int
  | some (.num n) => some n
  | some (.str s) => s.trim.toInt?
  | _ => none

/-- A handle identifying one HomeKit characteristic object: the id of
the service it sits on plus the characteristic UUID. -/
structure ChRef where
  sid : String
  uuid : String
  deriving DecidableEq, Repr

/-- The read map stored for a registered characteristic: either the
plain `getMap` of the config (default identity), or — for
history-tagged configs — that map wrapped with history recording
(`register`, lines 186-221). -/
inductive MapSpec where
  | plain (f : CharValue → CharValue)
  | history (f : CharValue → CharValue) (historyType : String) (historyKey : String)

/-- The base read transform underneath a map spec. -/
def MapSpec.base : MapSpec → (CharValue → CharValue)
  | .plain f => f
  | .history f _ _ => f

/-- One observable action of the engine. -/
inductive Effect where
  /-- `protocol.getProps(keys)` — the batched device fetch. -/
  | deviceGetProps (keys : List String)
  /-- `protocol.setProp(key, call, value)` — a device write. -/
  | deviceSetProp (key : String) (call : String) (value : PrimitiveType)
  /-- `characteristic.updateValue(v)` — a push to the Accessory Host. -/
  | updateValue (char : ChRef) (value : CharValue)
  /-- invocation of a `beforeSet` hook with the requested value. -/
  | invokeBeforeSet (value : CharValue)
  /-- invocation of an `afterSet` hook with the requested value and the
  computed device value. -/
  | invokeAfterSet (value : CharValue) (mappedValue : PrimitiveType)
  /-- `callback(err?)` — acknowledgement of a "set" to the Accessory
  Host (`none` = success, `some e` = failure with reason `e`). -/
  | callbackSet (err : Option JsError)
  /-- `callback(null, v)` — answer of a "get" to the Accessory Host. -/
  | callbackGet (err : Option JsError) (value : CharValue)
  /-- `historyService.getLastEntry()` on a channel. -/
  | historyGetLast (ch : String)
  /-- `historyService.addEntry(entry)` on a channel. -/
  | historyAdd (ch : String) (e : Entry)
  /-- `log.error(...)`. -/
  | logError
  /-- `log.warn(...)` (invalid-token warning). -/
  | logWarn
  deriving DecidableEq, Repr

/-- Is the effect a call on the Device Protocol? -/
def Effect.isDeviceCall : Effect → Bool
  | .deviceGetProps _ => true
  | .deviceSetProp _ _ _ => true
  | _ => false

/-- Is the effect a characteristic push (`updateValue`)? -/
def Effect.isPush : Effect → Bool
  | .updateValue _ _ => true
  | _ => false

/-- Is the effect a History Log operation? -/
def Effect.isHistoryOp : Effect → Bool
  | .historyGetLast _ => true
  | .historyAdd _ _ => true
  | _ => false

/-- Evaluate a stored read map on a property value: the history-wrapped
map (`register`, lines 188-220) computes the base result; when the
result is falsy it is returned with no history activity; otherwise, when
the channel's history service exists, the current open entry is fetched
(or a fresh one started), its time set to now (seconds), the field set
to `parseInt(" " + result)`, and the entry appended/updated. -/
def evalMap (spec : MapSpec) (channels : List String) (now : Nat)
    (h : HistoryState) (it : CharValue) : CharValue × HistoryState × List Effect :=
  match spec with
  | .plain f => (f it, h, [])
  | .history f historyType historyKey =>
    let result := f it
    if !CharValue.truthy result then
      (result, h, [])
    else if historyType ∈ channels then
      let entry : Entry :=
        match getLastEntry h historyType with
        | none => { time := now, fields := [] }
        | some e => { e with time := now }
      let entry := entry.setField historyKey (parseIntJS result)
      (result, addEntry h historyType entry,
        [.historyGetLast historyType, .historyAdd historyType entry])
    else
      (result, h, [])

/-- `GetEntry`: a registered property key with the characteristics bound
to it (`props` field of `BaseHumidifier`). -/
structure GetEntry where
  key : String
  values : List (ChRef × MapSpec)

/-- Optional service naming of a characteristic config. -/
structure FeatureName where
  displayName : String
  subtype : String
  deriving DecidableEq, Repr

/-- `config.set` of a dynamic config: the device call name plus the
write transform and hooks.  Hooks are modelled by the result they
produce when invoked (`Except` for a throwing hook); the `beforeSet`
result is `none` for a hook returning `undefined`/`void`. -/
structure SetConfig where
  call : String
  map : Option (CharValue → Except JsError PrimitiveType)
  beforeSet : Option (CharValue → Except JsError (Option Bool))
  afterSet : Option (CharValue → PrimitiveType → Except JsError Unit)

/-- `CharacteristicConfig`: one row of the Feature Table — either a
static value / fixed get-callback (`"value" in config`) or a dynamic,
device-backed binding. -/
inductive FeatureConfig where
  | static (serviceUUID : String) (name : Option FeatureName) (charUUID : String)
  | dynamic (serviceUUID : String) (name : Option FeatureName) (charUUID : String)
      (key : String) (getMap : Option (CharValue → CharValue))
      (history : Option (String × String)) (setCfg : Option SetConfig)

/-- The service UUID of a config. -/
def FeatureConfig.serviceUUID : FeatureConfig → String
  | .static u _ _ => u
  | .dynamic u _ _ _ _ _ _ => u

/-- The optional service name of a config. -/
def FeatureConfig.name : FeatureConfig → Option FeatureName
  | .static _ n _ => n
  | .dynamic _ n _ _ _ _ _ => n

/-- The characteristic UUID of a config. -/
def FeatureConfig.charUUID : FeatureConfig → String
  | .static _ _ c => c
  | .dynamic _ _ c _ _ _ _ => c

/-- `feature.service.UUID + (feature.name ? feature.name.subtype : "")`:
the service id a config enables (`configureAccessory`, lines 54-59). -/
def FeatureConfig.serviceId (f : FeatureConfig) : String :=
  f.serviceUUID ++ (match f.name with | some nm => nm.subtype | none => "")

/-- Is the config dynamic (no static value / fixed get-callback)? -/
def FeatureConfig.isDynamic : FeatureConfig → Bool
  | .static _ _ _ => false
  | .dynamic _ _ _ _ _ _ _ => true

/-- The property key of a dynamic config. -/
def FeatureConfig.key? : FeatureConfig → Option String
  | .static _ _ _ => none
  | .dynamic _ _ _ k _ _ _ => some k

/-- The history tag of a dynamic config. -/
def FeatureConfig.history? : FeatureConfig → Option (String × String)
  | .static _ _ _ => none
  | .dynamic _ _ _ _ _ h _ => h

/-- One HomeKit service on the accessory: UUID, subtype, display name
and the UUIDs of its characteristics. -/
structure HService where
  uuid : String
  subtype : String
  displayName : String
  characteristics : List String
  deriving DecidableEq, Repr

/-- `service.getServiceId()` : UUID concatenated with the subtype. -/
def HService.getServiceId (s : HService) : String :=
  s.uuid ++ s.subtype

/-- The Accessory Host's attribute tree for one accessory. -/
structure Accessory where
  services : List HService
  deriving DecidableEq, Repr

/-- The engine state of a `BaseHumidifier` instance: the immutable
feature table from the constructor, the property index `props`, the
property cache and the set of instantiated history channels. -/
structure Engine where
  features : List FeatureConfig
  props : List GetEntry
  cache : PropsMap
  historyServices : List String

/-- The constructor: `props = []`, `cache = {}`, `historyServices = {}`. -/
def mkEngine (features : List FeatureConfig) : Engine :=
  { features := features, props := [], cache := [], historyServices := [] }

/-- The keys of the property index (what each poll fetches). -/
def propKeys (props : List GetEntry) : List String :=
  props.map (·.key)

/-- The inner body of the push loop of `update` (lines 120-126): one
`characteristic.updateValue(map(propValue))` push, threading the
history state of the history-wrapped maps and accumulating effects. -/
def pushOne (channels : List String) (now : Nat) (propValue : CharValue)
    (acc2 : HistoryState × List Effect) (v : ChRef × MapSpec) :
    HistoryState × List Effect :=
  let r := evalMap v.2 channels now acc2.1 propValue
  (r.2.1, acc2.2 ++ r.2.2 ++ [.updateValue v.1 r.1])

/-- The outer body of the push loop of `update` (lines 117-127): push
every characteristic bound to one property key. -/
def pushProp (channels : List String) (now : Nat) (newCache : PropsMap)
    (acc : HistoryState × List Effect) (prop : GetEntry) :
    HistoryState × List Effect :=
  prop.values.foldl (pushOne channels now (lookupProp newCache prop.key)) acc

/-- `update()` (lines 112-138): one poll cycle, given the outcome of the
batched `protocol.getProps` call over the registered keys.  On success
the cache is replaced with the returned mapping and every bound
characteristic gets its mapped value pushed (threading the history
state through the history-wrapped maps); on failure the state is left
untouched, the error is logged (with an extra warning for
`ProtocolError`) and the method returns normally. -/
def update (eng : Engine) (now : Nat) (h : HistoryState)
    (result : Except JsError PropsMap) : Engine × HistoryState × List Effect :=
  let keys := propKeys eng.props
  match result with
  | .error e =>
    (eng, h, [.deviceGetProps keys, .logError] ++
      (match e with | .protocolError _ => [.logWarn] | .error _ => []))
  | .ok newCache =>
    let out := eng.props.foldl (pushProp eng.historyServices now newCache) (h, [])
    ({ eng with cache := newCache }, out.1, .deviceGetProps keys :: out.2)

/-- `getProp` (lines 285-293): the "get" responder.  Serves only from
the cache — a falsy cached value (or an absent one, before the first
successful poll) is replaced by `null` before the map is applied — and
answers through `callback(null, mappedValue)`. -/
def getProp (eng : Engine) (now : Nat) (h : HistoryState)
    (key : String) (spec : MapSpec) : HistoryState × List Effect :=
  let value : CharValue :=
    if CharValue.truthy (lookupProp eng.cache key) then lookupProp eng.cache key
    else none
  let r := evalMap spec eng.historyServices now h value
  (r.2.1, r.2.2 ++ [.callbackGet none r.1])

/-- `SetEntry` (write-path record built by `register`, lines 249-258):
write transform defaulted to the identity when the config gives none. -/
structure SetEntry where
  key : String
  call : String
  char : ChRef
  map : CharValue → Except JsError PrimitiveType
  beforeSet : Option (CharValue → Except JsError (Option Bool))
  afterSet : Option (CharValue → PrimitiveType → Except JsError Unit)

/-- `setProp` (lines 305-345): the "set" responder.  Awaits in order:
`beforeSet` (when defined), the write transform, the device
`protocol.setProp` call (unless `beforeSet` returned exactly `true`),
`afterSet` (when defined), then acknowledges success; any thrown error
aborts the rest, is logged and acknowledged as `callback(err)`.  The
engine state (in particular the cache) is returned untouched.  `proto`
gives the outcome of the device write, were it issued. -/
def setProp (eng : Engine) (entry : SetEntry) (value : CharValue)
    (proto : String → String → PrimitiveType → Except JsError Unit) :
    Engine × List Effect :=
  let before : Except JsError (Option Bool) × List Effect :=
    match entry.beforeSet with
    | none => (.ok none, [])
    | some fb => (fb value, [.invokeBeforeSet value])
  match before.1 with
  | .error e => (eng, before.2 ++ [.logError, .callbackSet (some e)])
  | .ok skipSet =>
    match entry.map value with
    | .error e => (eng, before.2 ++ [.logError, .callbackSet (some e)])
    | .ok mappedValue =>
      let setStep : Except JsError Unit × List Effect :=
        if skipSet ≠ some true then
          (proto entry.key entry.call mappedValue,
           [.deviceSetProp entry.key entry.call mappedValue])
        else (.ok (), [])
      match setStep.1 with
      | .error e =>
        (eng, before.2 ++ setStep.2 ++ [.logError, .callbackSet (some e)])
      | .ok _ =>
        let after : Except JsError Unit × List Effect :=
          match entry.afterSet with
          | none => (.ok (), [])
          | some fa => (fa value mappedValue, [.invokeAfterSet value mappedValue])
        match after.1 with
        | .error e =>
          (eng, before.2 ++ setStep.2 ++ after.2 ++ [.logError, .callbackSet (some e)])
        | .ok _ =>
          (eng, before.2 ++ setStep.2 ++ after.2 ++ [.callbackSet none])

/-- JS `Array.prototype.forEach` over an array from which the callback
may splice out the visited element (`removeService` /
`removeCharacteristic` inside the `forEach` of `configureAccessory`,
lines 62-84): removing element `i` shifts the rest left while `forEach`
still advances its index, so the element that followed a removed one is
never visited (it stays, untouched).  `g x = none` means the callback
removed `x`; `g x = some y` means it kept it (possibly mutated). -/
def jsSweep (g : α → Option α) : List α → List α
  | [] => []
  | x :: xs =>
    match g x with
    | some y => y :: jsSweep g xs
    | none =>
      match xs with
      | [] => []
      | z :: zs => z :: jsSweep g zs

/-- `accessory.getService(displayName)`: index of the first service with
the given display name. -/
def findServiceIdxByName (acc : Accessory) (dn : String) : Option Nat :=
  acc.services.findIdx? (fun s => s.displayName = dn)

/-- `accessory.getService(serviceType)`: index of the first service with
the given UUID. -/
def findServiceIdxByUUID (acc : Accessory) (u : String) : Option Nat :=
  acc.services.findIdx? (fun s => s.uuid = u)

/-- `register`, lines 147-161: locate the config's service on the
accessory (by display name when the config is named, by service UUID
otherwise) or add it.  Returns the accessory and the index of the
service used. -/
def findOrAddService (acc : Accessory) (cfg : FeatureConfig) : Accessory × Nat :=
  match cfg.name with
  | some nm =>
    match findServiceIdxByName acc nm.displayName with
    | some i => (acc, i)
    | none =>
      ({ services := acc.services ++
          [{ uuid := cfg.serviceUUID, subtype := nm.subtype,
             displayName := nm.displayName, characteristics := [] }] },
       acc.services.length)
  | none =>
    match findServiceIdxByUUID acc cfg.serviceUUID with
    | some i => (acc, i)
    | none =>
      ({ services := acc.services ++
          [{ uuid := cfg.serviceUUID, subtype := "",
             displayName := "", characteristics := [] }] },
       acc.services.length)

/-- `service.getCharacteristic(type)` (line 163): returns the service's
characteristic of that UUID, adding it when absent. -/
def addCharAt (acc : Accessory) (i : Nat) (cu : String) : Accessory :=
  match acc.services.get? i with
  | none => acc
  | some s =>
    if cu ∈ s.characteristics then acc
    else { services :=
      acc.services.set i { s with characteristics := s.characteristics ++ [cu] } }

/-- The service id of the accessory's `i`-th service. -/
def serviceIdAt (acc : Accessory) (i : Nat) : String :=
  match acc.services.get? i with
  | some s => s.getServiceId
  | none => ""

/-- Lines 223-242 of `register`: add one characteristic binding to the
property index — appended to the existing entry of the key when there is
one, otherwise as a new entry. -/
def addBinding (props : List GetEntry) (key : String) (b : ChRef × MapSpec) :
    List GetEntry :=
  if (props.find? (fun p => p.key = key)).isSome then
    props.map (fun p => if p.key = key then { p with values := p.values ++ [b] } else p)
  else props ++ [{ key := key, values := [b] }]

/-- `register` (lines 143-271): find-or-create the service and the
characteristic; a static config installs its sourceless behavior and
touches no engine state; a dynamic config builds its read map (default
identity), wraps it with history recording when history-tagged, and
registers the binding into the property index.  (The get/set responders
it installs are `getProp`/`setProp`.) -/
def register (st : Engine × Accessory) (cfg : FeatureConfig) : Engine × Accessory :=
  let found := findOrAddService st.2 cfg
  let acc2 := addCharAt found.1 found.2 cfg.charUUID
  match cfg with
  | .static _ _ _ => (st.1, acc2)
  | .dynamic _ _ _ key getMap history _set =>
    let base := getMap.getD (fun it => it)
    let spec :=
      match history with
      | some (ht, hk) => MapSpec.history base ht hk
      | none => MapSpec.plain base
    let chref : ChRef := { sid := serviceIdAt acc2 found.2, uuid := cfg.charUUID }
    ({ st.1 with props := addBinding st.1.props key (chref, spec) }, acc2)

/-- The service ids enabled by the feature table
(`configureAccessory`, lines 54-59). -/
def enabledServiceIds (features : List FeatureConfig) : List String :=
  features.map FeatureConfig.serviceId

/-- The characteristic UUIDs enabled on one service id
(`configureAccessory`, lines 68-76). -/
def enabledCharsFor (features : List FeatureConfig) (sid : String) : List String :=
  (features.filter (fun f => f.serviceId = sid)).map FeatureConfig.charUUID

/-- The cleanup callback run on each visited service (lines 62-84):
remove the service when its id is not enabled; on a kept service, sweep
out the characteristics not enabled for its id. -/
def cleanupService (features : List FeatureConfig) (s : HService) : Option HService :=
  if s.getServiceId ∈ enabledServiceIds features then
    let chars := jsSweep
      (fun c => if c ∈ enabledCharsFor features s.getServiceId then some c else none)
      s.characteristics
    some { s with characteristics := chars }
  else none

/-- The cleanup pass over the accessory's services. -/
def cleanupAccessory (features : List FeatureConfig) (acc : Accessory) : Accessory :=
  { services := jsSweep (cleanupService features) acc.services }

/-- Lines 87-92: the distinct history types referenced by the feature
table, in first-occurrence order. -/
def collectHistoryTypes (features : List FeatureConfig) : List String :=
  features.foldl
    (fun l f =>
      match f.history? with
      | some ht => if ht.1 ∈ l then l else l ++ [ht.1]
      | none => l)
    []

/-- Lines 95-102: instantiate one history service per distinct type
(existing handles are overwritten in place, so the id set only grows). -/
def setupHistory (eng : Engine) : Engine :=
  let ids := (collectHistoryTypes eng.features).foldl
    (fun l t => if t ∈ l then l else l ++ [t]) eng.historyServices
  { eng with historyServices := ids }

/-- `configureAccessory` (lines 49-103): register every feature, then
clean up services/characteristics not named by the feature table, then
create the history services. -/
def configureAccessory (eng : Engine) (acc : Accessory) : Engine × Accessory :=
  let st := eng.features.foldl register (eng, acc)
  (setupHistory st.1, cleanupAccessory st.1.features st.2)

/-- The outcome of step 1 of the write path: what `await entry.beforeSet(...)`
leaves in `skipSet` (`undefined`, i.e. `none`, when the hook is absent). -/
def beforeResult (entry : SetEntry) (value : CharValue) :
    Except JsError (Option Bool) :=
  match entry.beforeSet with
  | none => .ok none
  | some fb => fb value

/-- The trace produced by step 1 of the write path: the `beforeSet`
invocation when the hook is defined. -/
def beforeTrace (entry : SetEntry) (value : CharValue) : List Effect :=
  match entry.beforeSet with
  | none => []
  | some _ => [.invokeBeforeSet value]

/-- A concrete re-registration scenario: the current Feature Table
keeps two device-backed attributes on the main service `SU1`; the
previously enabled temperature attribute (service `SU2` with subtype
`sub1`, characteristic `CU3`, property key `temperature`) is gone. -/
def exampleFeatures : List FeatureConfig :=
  [.dynamic "SU1" none "CU1" "power" none none none,
   .dynamic "SU1" none "CU4" "speed" none none none]

/-- The accessory tree left over from the previous registration pass:
the main service plus the now-disabled temperature service. -/
def exampleAccessory : Accessory :=
  ⟨[⟨"SU1", "", "", ["CU1", "CU4"]⟩, ⟨"SU2", "sub1", "Temp", ["CU3"]⟩]⟩

/-! ### Helper lemmas -/

theorem evalMap_fst (spec : MapSpec) (channels : List String) (now : Nat)
    (h : HistoryState) (it : CharValue) :
    (evalMap spec channels now h it).1 = spec.base it := by
  cases spec with
  | plain f => rfl
  | history f ht hk =>
    simp only [evalMap, MapSpec.base]
    split
    · rfl
    · split
      · rfl
      · rfl

theorem evalMap_no_device (spec : MapSpec) (channels : List String) (now : Nat)
    (h : HistoryState) (it : CharValue) :
    ((evalMap spec channels now h it).2.2.filter Effect.isDeviceCall) = [] := by
  cases spec with
  | plain f => rfl
  | history f ht hk =>
    simp only [evalMap]
    split
    · rfl
    · split
      · rfl
      · rfl

theorem evalMap_channels_nil (spec : MapSpec) (now : Nat)
    (h : HistoryState) (it : CharValue) :
    evalMap spec [] now h it = (spec.base it, h, []) := by
  cases spec with
  | plain f => rfl
  | history f ht hk =>
    simp only [evalMap, MapSpec.base, List.not_mem_nil, if_false]
    split
    · rfl
    · rfl

theorem foldl_pushOne_mono (channels : List String) (now : Nat)
    (propValue : CharValue) (vs : List (ChRef × MapSpec)) :
    ∀ (acc2 : HistoryState × List Effect) (e : Effect),
      e ∈ acc2.2 → e ∈ (vs.foldl (pushOne channels now propValue) acc2).2 := by
  induction vs with
  | nil => intro acc2 e he; exact he
  | cons v vs ih =>
    intro acc2 e he
    apply ih
    exact List.mem_append_left _ (List.mem_append_left _ he)

theorem mem_pushOne_self (channels : List String) (now : Nat)
    (propValue : CharValue) (acc2 : HistoryState × List Effect)
    (v : ChRef × MapSpec) :
    Effect.updateValue v.1 (MapSpec.base v.2 propValue) ∈
      (pushOne channels now propValue acc2 v).2 := by
  show _ ∈ acc2.2 ++ (evalMap v.2 channels now acc2.1 propValue).2.2 ++
    [Effect.updateValue v.1 (evalMap v.2 channels now acc2.1 propValue).1]
  rw [evalMap_fst]
  exact List.mem_append_right _ (List.mem_singleton.mpr rfl)

theorem mem_foldl_pushOne (channels : List String) (now : Nat)
    (propValue : CharValue) (v : ChRef × MapSpec) :
    ∀ (vs : List (ChRef × MapSpec)) (acc2 : HistoryState × List Effect),
      v ∈ vs →
      Effect.updateValue v.1 (MapSpec.base v.2 propValue) ∈
        (vs.foldl (pushOne channels now propValue) acc2).2 := by
  intro vs
  induction vs with
  | nil => intro acc2 hv; cases hv
  | cons w ws ih =>
    intro acc2 hv
    rw [List.foldl_cons]
    rcases List.mem_cons.mp hv with hveq | hvmem
    · subst hveq
      exact foldl_pushOne_mono channels now propValue ws _ _
        (mem_pushOne_self channels now propValue acc2 v)
    · exact ih _ hvmem

theorem foldl_pushProp_mono (channels : List String) (now : Nat)
    (newCache : PropsMap) (props : List GetEntry) :
    ∀ (acc : HistoryState × List Effect) (e : Effect),
      e ∈ acc.2 → e ∈ (props.foldl (pushProp channels now newCache) acc).2 := by
  induction props with
  | nil => intro acc e he; exact he
  | cons p ps ih =>
    intro acc e he
    exact ih _ e (foldl_pushOne_mono _ _ _ _ _ e he)

theorem mem_foldl_pushProp (channels : List String) (now : Nat)
    (newCache : PropsMap) (prop : GetEntry) (v : ChRef × MapSpec)
    (hv : v ∈ prop.values) :
    ∀ (props : List GetEntry) (acc : HistoryState × List Effect),
      prop ∈ props →
      Effect.updateValue v.1 (MapSpec.base v.2 (lookupProp newCache prop.key)) ∈
        (props.foldl (pushProp channels now newCache) acc).2 := by
  intro props
  induction props with
  | nil => intro acc hp; cases hp
  | cons q qs ih =>
    intro acc hp
    rw [List.foldl_cons]
    rcases List.mem_cons.mp hp with hpeq | hpmem
    · subst hpeq
      refine foldl_pushProp_mono channels now newCache qs _ _ ?_
      show Effect.updateValue v.1 (MapSpec.base v.2 (lookupProp newCache prop.key)) ∈
        (prop.values.foldl (pushOne channels now (lookupProp newCache prop.key)) acc).2
      exact mem_foldl_pushOne channels now (lookupProp newCache prop.key) v
        prop.values acc hv
    · exact ih _ hpmem

/-! ### Claim theorems -/

/-- Claim C2: if the device protocol's `getProps` call fails during
`update()`, the Property Cache (indeed the whole engine state and the
history state) is unchanged, no characteristic value is pushed, and
`update()` returns normally — the error is caught and only logged. -/
theorem update_poll_failure_noop (eng : Engine) (now : Nat) (h : HistoryState)
    (e : JsError) :
    (update eng now h (.error e)).1 = eng ∧
    (update eng now h (.error e)).2.1 = h ∧
    ((update eng now h (.error e)).2.2.filter Effect.isPush) = [] := by
  refine ⟨rfl, rfl, ?_⟩
  cases e <;> rfl

/-- Claim C3: the "get" responder never performs a device-protocol
call — it answers synchronously from the Property Cache — and on a
freshly constructed engine (zero prior successful polls, empty cache)
it answers `callback(null, readTransform(null))`: the transform of the
null sentinel, not an error and not a device fetch. -/
theorem get_serves_cache_only (eng : Engine) (F : List FeatureConfig)
    (now : Nat) (h : HistoryState) (key : String) (spec : MapSpec) :
    ((getProp eng now h key spec).2.filter Effect.isDeviceCall) = [] ∧
    getProp (mkEngine F) now h key spec =
      (h, [.callbackGet none (spec.base none)]) := by
  constructor
  · simp only [getProp, List.filter_append, evalMap_no_device, List.nil_append]
    rfl
  · have h1 : getProp (mkEngine F) now h key spec =
        ((evalMap spec [] now h none).2.1,
         (evalMap spec [] now h none).2.2 ++
           [.callbackGet none ((evalMap spec [] now h none).1)]) := rfl
    rw [h1, evalMap_channels_nil]
    rfl

/-- Claim C9: for a history-tagged binding, when the base read transform
gives a falsy result, history recording is skipped entirely — the
history state is unchanged and no history operation (fetch, create or
append) is performed — and the falsy result is still returned as the
characteristic value. -/
theorem history_skips_falsy (f : CharValue → CharValue) (ht hk : String)
    (channels : List String) (now : Nat) (h : HistoryState) (it : CharValue)
    (hfalsy : CharValue.truthy (f it) = false) :
    evalMap (.history f ht hk) channels now h it = (f it, h, []) := by
  simp only [evalMap, hfalsy, Bool.not_false, if_true]

/-- Witness for C9 at a transform returning `null` on the value `5`. -/
theorem history_skips_falsy_witness :
    CharValue.truthy ((fun _ : CharValue => (none : CharValue))
        (some (PrimitiveType.num 5))) = false ∧
    evalMap (.history (fun _ => none) "climate" "temp") ["climate"] 7 []
        (some (PrimitiveType.num 5)) = (none, [], []) :=
  ⟨rfl, history_skips_falsy (fun _ => none) "climate" "temp" ["climate"] 7 []
    (some (PrimitiveType.num 5)) rfl⟩

/-- Claim C10: when the cached value of a registered key is falsy
(`0`, `false`, `""`), the "get" responder substitutes the null sentinel
before applying the read transform: the answered value is the transform
of `null`, not of the cached value — even after a successful poll stored
the falsy value. -/
theorem get_falsy_cache_serves_null (eng : Engine) (now : Nat)
    (h : HistoryState) (key : String) (spec : MapSpec) (v : PrimitiveType)
    (hv : lookupProp eng.cache key = some v) (hfalsy : v.truthy = false) :
    (getProp eng now h key spec).2 =
      (evalMap spec eng.historyServices now h none).2.2 ++
        [.callbackGet none (spec.base none)] := by
  simp only [getProp, hv, CharValue.truthy, hfalsy, Bool.false_eq_true, if_false,
    evalMap_fst]

/-- Witness for C10: a cached `0` is served as the transform of `null`. -/
theorem get_falsy_cache_serves_null_witness :
    lookupProp [("power", PrimitiveType.num 0)] "power" = some (.num 0) ∧
    PrimitiveType.truthy (.num 0) = false ∧
    (getProp ⟨[], [], [("power", PrimitiveType.num 0)], []⟩ 0 [] "power"
        (.plain (fun it => it))).2 =
      (evalMap (.plain (fun it => it)) [] 0 [] none).2.2 ++
        [.callbackGet none (MapSpec.base (.plain (fun it => it)) none)] :=
  ⟨rfl, rfl,
    get_falsy_cache_serves_null ⟨[], [], [("power", PrimitiveType.num 0)], []⟩
      0 [] "power" (.plain (fun it => it)) (.num 0) rfl rfl⟩

/-- Claim C1: on a successful poll, `update()` replaces the whole
Property Cache with exactly the mapping returned by the batched
`getProps` call over the registered keys (the first effect is that
batched call over `propKeys`), and for every characteristic bound to a
registered key it pushes the binding's read transform applied to the
new cached value — unconditionally, even when the value is unchanged. -/
theorem update_replaces_cache_and_pushes (eng : Engine) (now : Nat)
    (h : HistoryState) (m : PropsMap) :
    (update eng now h (.ok m)).1.cache = m ∧
    (update eng now h (.ok m)).1.props = eng.props ∧
    (update eng now h (.ok m)).2.2.head? =
      some (.deviceGetProps (propKeys eng.props)) ∧
    ∀ prop ∈ eng.props, ∀ v ∈ prop.values,
      Effect.updateValue v.1 (MapSpec.base v.2 (lookupProp m prop.key)) ∈
        (update eng now h (.ok m)).2.2 := by
  refine ⟨rfl, rfl, rfl, ?_⟩
  intro prop hp v hv
  show _ ∈ Effect.deviceGetProps (propKeys eng.props) ::
    (eng.props.foldl (pushProp eng.historyServices now m) (h, [])).2
  exact List.mem_cons_of_mem _
    (mem_foldl_pushProp eng.historyServices now m prop v hv eng.props (h, []) hp)

/-- Witness for C1: one registered key, one bound characteristic; the
poll returning `{power: 1}` pushes the transform of `1`. -/
theorem update_replaces_cache_and_pushes_witness :
    Effect.updateValue ⟨"s", "c"⟩
        (MapSpec.base (.plain (fun it => it))
          (lookupProp [("power", PrimitiveType.num 1)] "power")) ∈
      (update ⟨[], [⟨"power", [(⟨"s", "c"⟩, .plain (fun it => it))]⟩], [], []⟩
        0 [] (.ok [("power", PrimitiveType.num 1)])).2.2 :=
  (update_replaces_cache_and_pushes
      ⟨[], [⟨"power", [(⟨"s", "c"⟩, .plain (fun it => it))]⟩], [], []⟩
      0 [] [("power", PrimitiveType.num 1)]).2.2.2
    ⟨"power", [(⟨"s", "c"⟩, .plain (fun it => it))]⟩ (List.Mem.head _)
    (⟨"s", "c"⟩, .plain (fun it => it)) (List.Mem.head _)

/-- Claim C4: when `beforeSet` is defined and returns `true` (skip),
the device `setProp` call is never issued, the device value is still
computed via the write transform, the `afterSet` hook — when defined —
is still invoked with that computed, unapplied device value, and
success is acknowledged to the caller. -/
theorem skip_write_still_runs_afterSet (eng : Engine) (entry : SetEntry)
    (value : CharValue)
    (proto : String → String → PrimitiveType → Except JsError Unit)
    (fb : CharValue → Except JsError (Option Bool)) (mv : PrimitiveType)
    (hb : entry.beforeSet = some fb)
    (hskip : fb value = .ok (some true))
    (hmap : entry.map value = .ok mv) :
    ((setProp eng entry value proto).2.filter Effect.isDeviceCall) = [] ∧
    (∀ fa, entry.afterSet = some fa →
      Effect.invokeAfterSet value mv ∈ (setProp eng entry value proto).2) ∧
    (entry.afterSet = none →
      (setProp eng entry value proto).2 =
        [.invokeBeforeSet value, .callbackSet none]) ∧
    (∀ fa, entry.afterSet = some fa → fa value mv = .ok () →
      (setProp eng entry value proto).2 =
        [.invokeBeforeSet value, .invokeAfterSet value mv, .callbackSet none]) := by
  cases hafter : entry.afterSet with
  | none =>
    have hsp : (setProp eng entry value proto).2 =
        [.invokeBeforeSet value, .callbackSet none] := by
      simp [setProp, hb, hskip, hmap, hafter]
    refine ⟨?_, ?_, fun _ => hsp, ?_⟩
    · rw [hsp]; rfl
    · intro fa hfa; exact absurd hfa (by simp)
    · intro fa hfa; exact absurd hfa (by simp)
  | some fa =>
    cases hres : fa value mv with
    | ok u =>
      have hsp : (setProp eng entry value proto).2 =
          [.invokeBeforeSet value, .invokeAfterSet value mv, .callbackSet none] := by
        simp [setProp, hb, hskip, hmap, hafter, hres]
      refine ⟨?_, ?_, ?_, ?_⟩
      · rw [hsp]; rfl
      · intro fa2 hfa2
        rw [hsp]
        exact List.mem_cons_of_mem _ (List.Mem.head _)
      · intro hnone; exact absurd hnone (by simp)
      · intro fa2 hfa2 hok
        exact hsp
    | error e =>
      have hsp : (setProp eng entry value proto).2 =
          [.invokeBeforeSet value, .invokeAfterSet value mv, .logError,
           .callbackSet (some e)] := by
        simp [setProp, hb, hskip, hmap, hafter, hres]
      refine ⟨?_, ?_, ?_, ?_⟩
      · rw [hsp]; rfl
      · intro fa2 hfa2
        rw [hsp]
        exact List.mem_cons_of_mem _ (List.Mem.head _)
      · intro hnone; exact absurd hnone (by simp)
      · intro fa2 hfa2 hok
        have hfa2eq : fa2 = fa := (Option.some_injective _ hfa2).symm
        rw [hfa2eq] at hok
        exact absurd (hres.symm.trans hok) (by simp)

/-- Witness for C4: a skipping `beforeSet`, a transform computing `3`
and a succeeding `afterSet`; the trace shows no device call, the
`afterSet` invocation with `3`, and the success acknowledgement. -/
theorem skip_write_still_runs_afterSet_witness :
    (setProp ⟨[], [], [], []⟩
        ⟨"mode", "set_mode", ⟨"s", "c"⟩, fun _ => .ok (PrimitiveType.num 3),
          some (fun _ => .ok (some true)), some (fun _ _ => .ok ())⟩
        (some (PrimitiveType.num 1))
        (fun _ _ _ => .error (.error "never"))).2 =
      [.invokeBeforeSet (some (PrimitiveType.num 1)),
       .invokeAfterSet (some (PrimitiveType.num 1)) (PrimitiveType.num 3),
       .callbackSet none] :=
  (skip_write_still_runs_afterSet ⟨[], [], [], []⟩
      ⟨"mode", "set_mode", ⟨"s", "c"⟩, fun _ => .ok (PrimitiveType.num 3),
        some (fun _ => .ok (some true)), some (fun _ _ => .ok ())⟩
      (some (PrimitiveType.num 1)) (fun _ _ _ => .error (.error "never"))
      (fun _ => .ok (some true)) (PrimitiveType.num 3) rfl rfl rfl).2.2.2
    (fun _ _ => .ok ()) rfl rfl

/-- Claim C5: any throwing step of the write path (`beforeSet`, the
write transform, the device `setProp` call, `afterSet`) aborts the
remaining steps, the failure is acknowledged with that error as the
reason (`callback(err)`), and the write path never modifies the engine
state — in particular the Property Cache — neither on failure nor on
success. -/
theorem write_failure_aborts (eng : Engine) (entry : SetEntry)
    (value : CharValue)
    (proto : String → String → PrimitiveType → Except JsError Unit) :
    (setProp eng entry value proto).1 = eng ∧
    (∀ e, beforeResult entry value = .error e →
      (setProp eng entry value proto).2 =
        beforeTrace entry value ++ [.logError, .callbackSet (some e)]) ∧
    (∀ sk e, beforeResult entry value = .ok sk → entry.map value = .error e →
      (setProp eng entry value proto).2 =
        beforeTrace entry value ++ [.logError, .callbackSet (some e)]) ∧
    (∀ sk mv e, beforeResult entry value = .ok sk → sk ≠ some true →
      entry.map value = .ok mv → proto entry.key entry.call mv = .error e →
      (setProp eng entry value proto).2 =
        beforeTrace entry value ++
          [.deviceSetProp entry.key entry.call mv, .logError,
           .callbackSet (some e)]) ∧
    (∀ sk mv fa e, beforeResult entry value = .ok sk → entry.map value = .ok mv →
      (sk = some true ∨ proto entry.key entry.call mv = .ok ()) →
      entry.afterSet = some fa → fa value mv = .error e →
      (setProp eng entry value proto).2 =
        beforeTrace entry value ++
          (if sk = some true then []
           else [.deviceSetProp entry.key entry.call mv]) ++
          [.invokeAfterSet value mv, .logError, .callbackSet (some e)]) := by
  cases hbs : entry.beforeSet with
  | none =>
    refine ⟨?_, ?_, ?_, ?_, ?_⟩
    · simp only [setProp, hbs]
      split <;> try rfl
      split <;> try rfl
      split <;> rfl
    · intro e he
      simp only [beforeResult, hbs] at he
      exact Except.noConfusion he
    · intro sk e hsk he
      simp only [beforeResult, hbs] at hsk
      cases hsk
      simp [setProp, hbs, he, beforeTrace]
    · intro sk mv e hsk hskip hmap hproto
      simp only [beforeResult, hbs] at hsk
      cases hsk
      simp [setProp, hbs, hmap, hproto, beforeTrace]
    · intro sk mv fa e hsk hmap hok hfa hfaerr
      simp only [beforeResult, hbs] at hsk
      cases hsk
      rcases hok with hok | hok
      · cases hok
      · simp [setProp, hbs, hmap, hok, hfa, hfaerr, beforeTrace]
  | some fb =>
    refine ⟨?_, ?_, ?_, ?_, ?_⟩
    · simp only [setProp, hbs]
      split <;> try rfl
      split <;> try rfl
      split <;> try rfl
      split <;> rfl
    · intro e he
      simp only [beforeResult, hbs] at he
      simp [setProp, hbs, he, beforeTrace]
    · intro sk e hsk he
      simp only [beforeResult, hbs] at hsk
      simp [setProp, hbs, hsk, he, beforeTrace]
    · intro sk mv e hsk hskip hmap hproto
      simp only [beforeResult, hbs] at hsk
      simp [setProp, hbs, hsk, hskip, hmap, hproto, beforeTrace]
    · intro sk mv fa e hsk hmap hok hfa hfaerr
      simp only [beforeResult, hbs] at hsk
      by_cases hskip : sk = some true
      · subst hskip
        simp [setProp, hbs, hsk, hmap, hfa, hfaerr, beforeTrace]
      · rcases hok with hok | hok
        · exact absurd hok hskip
        · simp [setProp, hbs, hsk, hskip, hmap, hok, hfa, hfaerr, beforeTrace]

/-- Witness for C5: a throwing `beforeSet`; the write path ends in the
failure acknowledgement with no device call and no `afterSet` run. -/
theorem write_failure_aborts_witness :
    (setProp ⟨[], [], [], []⟩
        ⟨"mode", "set_mode", ⟨"s", "c"⟩, fun _ => .ok (PrimitiveType.num 3),
          some (fun _ => .error (.error "boom")), none⟩
        (some (PrimitiveType.num 1)) (fun _ _ _ => .ok ())).1 =
      (⟨[], [], [], []⟩ : Engine) ∧
    (setProp ⟨[], [], [], []⟩
        ⟨"mode", "set_mode", ⟨"s", "c"⟩, fun _ => .ok (PrimitiveType.num 3),
          some (fun _ => .error (.error "boom")), none⟩
        (some (PrimitiveType.num 1)) (fun _ _ _ => .ok ())).2 =
      beforeTrace
          ⟨"mode", "set_mode", ⟨"s", "c"⟩, fun _ => .ok (PrimitiveType.num 3),
            some (fun _ => .error (.error "boom")), none⟩
          (some (PrimitiveType.num 1)) ++
        [.logError, .callbackSet (some (.error "boom"))] :=
  ⟨(write_failure_aborts ⟨[], [], [], []⟩
      ⟨"mode", "set_mode", ⟨"s", "c"⟩, fun _ => .ok (PrimitiveType.num 3),
        some (fun _ => .error (.error "boom")), none⟩
      (some (PrimitiveType.num 1)) (fun _ _ _ => .ok ())).1,
   (write_failure_aborts ⟨[], [], [], []⟩
      ⟨"mode", "set_mode", ⟨"s", "c"⟩, fun _ => .ok (PrimitiveType.num 3),
        some (fun _ => .error (.error "boom")), none⟩
      (some (PrimitiveType.num 1)) (fun _ _ _ => .ok ())).2.1
     (.error "boom") rfl⟩

theorem propKeys_addBinding (props : List GetEntry) (key : String)
    (b : ChRef × MapSpec) (k : String) :
    k ∈ propKeys (addBinding props key b) ↔ k ∈ propKeys props ∨ k = key := by
  unfold addBinding
  split
  case isTrue hfound =>
    have hkeys : propKeys (props.map (fun p =>
        if p.key = key then { p with values := p.values ++ [b] } else p)) =
        propKeys props := by
      unfold propKeys
      rw [List.map_map]
      apply List.map_congr_left
      intro p _
      by_cases hpk : p.key = key
      · simp [hpk]
      · simp [hpk]
    rw [hkeys]
    constructor
    · exact Or.inl
    · rintro (hk | hk)
      · exact hk
      · subst hk
        rcases Option.isSome_iff_exists.mp hfound with ⟨x, hx⟩
        have hxk' := List.find?_some hx
        have hxk : x.key = k := by simpa using hxk'
        have hxmem : x ∈ props := List.mem_of_find?_eq_some hx
        exact List.mem_map.mpr ⟨x, hxmem, hxk⟩
  case isFalse =>
    unfold propKeys
    simp [List.map_append]

theorem register_propKeys (st : Engine × Accessory) (cfg : FeatureConfig)
    (k : String) :
    k ∈ propKeys (register st cfg).1.props ↔
      k ∈ propKeys st.1.props ∨ (cfg.isDynamic = true ∧ cfg.key? = some k) := by
  cases cfg with
  | static u n c =>
    simp [register, FeatureConfig.isDynamic]
  | dynamic u n c key gm hist setCfg =>
    show k ∈ propKeys (addBinding st.1.props key _) ↔ _
    rw [propKeys_addBinding]
    simp only [FeatureConfig.isDynamic, FeatureConfig.key?, true_and,
      Option.some_inj]
    constructor
    · rintro (hk | hk)
      · exact Or.inl hk
      · exact Or.inr hk.symm
    · rintro (hk | hk)
      · exact Or.inl hk
      · exact Or.inr hk.symm

theorem register_features (st : Engine × Accessory) (cfg : FeatureConfig) :
    (register st cfg).1.features = st.1.features := by
  cases cfg <;> rfl

theorem foldl_register_propKeys (F : List FeatureConfig) :
    ∀ (st : Engine × Accessory) (k : String),
    (k ∈ propKeys ((F.foldl register st).1.props) ↔
      k ∈ propKeys st.1.props ∨ ∃ f ∈ F, f.isDynamic = true ∧ f.key? = some k) := by
  induction F with
  | nil => intro st k; simp
  | cons f fs ih =>
    intro st k
    rw [List.foldl_cons, ih, register_propKeys]
    rw [or_assoc]
    constructor
    · rintro (hk | hk | hk)
      · exact Or.inl hk
      · exact Or.inr ⟨f, List.Mem.head _, hk⟩
      · rcases hk with ⟨g, hg, hgp⟩
        exact Or.inr ⟨g, List.mem_cons_of_mem _ hg, hgp⟩
    · rintro (hk | ⟨g, hg, hgp⟩)
      · exact Or.inl hk
      · rcases List.mem_cons.mp hg with hgf | hgf
        · subst hgf; exact Or.inr (Or.inl hgp)
        · exact Or.inr (Or.inr ⟨g, hgf, hgp⟩)

theorem configureAccessory_props (eng : Engine) (acc : Accessory) :
    (configureAccessory eng acc).1.props =
      (eng.features.foldl register (eng, acc)).1.props := rfl

/-- Claim C6: after a configuration pass on a freshly constructed
engine, the keys of the Property Index are exactly the property keys of
the dynamic bindings (those without a static value or fixed
get-callback) of the Feature Table — no extra, no missing keys — and
every poll cycle's batched device fetch requests exactly the index's
key list. -/
theorem property_index_is_dynamic_keys (F : List FeatureConfig)
    (acc : Accessory) (k : String) (now : Nat) (h : HistoryState)
    (r : Except JsError PropsMap) :
    (k ∈ propKeys (configureAccessory (mkEngine F) acc).1.props ↔
      ∃ f ∈ F, f.isDynamic = true ∧ f.key? = some k) ∧
    (update ((configureAccessory (mkEngine F) acc).1) now h r).2.2.head? =
      some (.deviceGetProps
        (propKeys (configureAccessory (mkEngine F) acc).1.props)) := by
  constructor
  · rw [configureAccessory_props]
    have hfeat : (mkEngine F).features = F := rfl
    rw [hfeat, foldl_register_propKeys]
    simp [mkEngine, propKeys]
  · cases r <;> rfl

/-- Claim C8: two history-tagged bindings on the same channel with
distinct history fields, evaluated within the same poll cycle with
truthy transform results, leave the channel's log with exactly one
merged entry carrying both field values and the single timestamp of the
recording — not two separate entries. -/
theorem history_merges_fields (ch hk1 hk2 k1 k2 : String) (c1 c2 : ChRef)
    (m1 m2 : CharValue → CharValue) (eng : Engine) (m : PropsMap) (now : Nat)
    (hne : hk1 ≠ hk2)
    (heng : eng.props = [⟨k1, [(c1, .history m1 ch hk1)]⟩,
                         ⟨k2, [(c2, .history m2 ch hk2)]⟩])
    (hch : ch ∈ eng.historyServices)
    (ht1 : CharValue.truthy (m1 (lookupProp m k1)) = true)
    (ht2 : CharValue.truthy (m2 (lookupProp m k2)) = true) :
    channelLog (update eng now [] (.ok m)).2.1 ch =
      [{ time := now,
         fields := [(hk1, parseIntJS (m1 (lookupProp m k1))),
                    (hk2, parseIntJS (m2 (lookupProp m k2)))] }] := by
  have hupd : (update eng now [] (.ok m)).2.1 =
      (eng.props.foldl (pushProp eng.historyServices now m) ([], [])).1 := rfl
  rw [hupd, heng]
  simp only [List.foldl_cons, List.foldl_nil, pushProp, pushOne, evalMap,
    ht1, ht2, hch, Bool.not_true, Bool.false_eq_true, if_false, if_true,
    getLastEntry, addEntry, setChannelLog, channelLog, Entry.setField,
    List.find?_nil, List.find?_cons, Option.map_eq_map, Option.isSome_none,
    List.head?, Option.getD]
  simp [hne, Ne.symm hne, channelLog, setChannelLog, addEntry, getLastEntry,
    Entry.setField, List.find?]

/-- Witness for C8: fields `temp` (21) and `humidity` (55) recorded on
channel `climate` in one poll produce the single merged entry. -/
theorem history_merges_fields_witness :
    channelLog
      (update
        ⟨[], [⟨"t", [(⟨"s", "c1"⟩, .history (fun it => it) "climate" "temp")]⟩,
              ⟨"h", [(⟨"s", "c2"⟩, .history (fun it => it) "climate" "humidity")]⟩],
         [], ["climate"]⟩
        5 [] (.ok [("t", PrimitiveType.num 21), ("h", PrimitiveType.num 55)])).2.1
      "climate" =
      [{ time := 5,
         fields := [("temp", parseIntJS ((fun it => it)
                      (lookupProp [("t", PrimitiveType.num 21),
                                   ("h", PrimitiveType.num 55)] "t"))),
                    ("humidity", parseIntJS ((fun it => it)
                      (lookupProp [("t", PrimitiveType.num 21),
                                   ("h", PrimitiveType.num 55)] "h")))] }] :=
  history_merges_fields "climate" "temp" "humidity" "t" "h"
    ⟨"s", "c1"⟩ ⟨"s", "c2"⟩ (fun it => it) (fun it => it)
    ⟨[], [⟨"t", [(⟨"s", "c1"⟩, .history (fun it => it) "climate" "temp")]⟩,
          ⟨"h", [(⟨"s", "c2"⟩, .history (fun it => it) "climate" "humidity")]⟩],
     [], ["climate"]⟩
    [("t", PrimitiveType.num 21), ("h", PrimitiveType.num 55)] 5
    (by decide) rfl (List.Mem.head _) (by decide) (by decide)

theorem isSome_of_isNone_false {α : Type} {o : Option α}
    (h : o.isNone = false) : o.isSome = true := by
  cases o
  · exact absurd h (by simp)
  · rfl

theorem jsSweep_cons_some {α : Type} {g : α → Option α} {x y : α}
    (xs : List α) (hy : g x = some y) :
    jsSweep g (x :: xs) = y :: jsSweep g xs := by
  cases xs with
  | nil => simp [jsSweep, hy]
  | cons z zs => simp [jsSweep, hy]

theorem jsSweep_cons_none_nil {α : Type} {g : α → Option α} {x : α}
    (hgx : g x = none) : jsSweep g [x] = [] := by
  simp [jsSweep, hgx]

theorem jsSweep_cons_none_cons {α : Type} {g : α → Option α} {x z : α}
    (zs : List α) (hgx : g x = none) :
    jsSweep g (x :: z :: zs) = z :: jsSweep g zs := by
  simp [jsSweep, hgx]

theorem jsSweep_eq_filterMap {α : Type} (g : α → Option α) :
    ∀ l : List α, (∀ x ∈ l, (g x).isSome = true) → jsSweep g l = l.filterMap g := by
  intro l
  induction l with
  | nil => intro _; rfl
  | cons x xs ih =>
    intro hall
    rcases Option.isSome_iff_exists.mp (hall x (List.Mem.head _)) with ⟨y, hy⟩
    have hxs : ∀ z ∈ xs, (g z).isSome = true :=
      fun z hz => hall z (List.mem_cons_of_mem _ hz)
    rw [jsSweep_cons_some xs hy, List.filterMap_cons, hy, ih hxs]

theorem jsSweep_append_all_some {α : Type} (g : α → Option α) :
    ∀ (l1 l2 : List α), (∀ x ∈ l1, (g x).isSome = true) →
      jsSweep g (l1 ++ l2) = l1.filterMap g ++ jsSweep g l2 := by
  intro l1
  induction l1 with
  | nil => intro l2 _; rfl
  | cons x xs ih =>
    intro l2 hall
    rcases Option.isSome_iff_exists.mp (hall x (List.Mem.head _)) with ⟨y, hy⟩
    have hxs : ∀ z ∈ xs, (g z).isSome = true :=
      fun z hz => hall z (List.mem_cons_of_mem _ hz)
    rw [List.cons_append, jsSweep_cons_some (xs ++ l2) hy, ih l2 hxs,
      List.filterMap_cons, hy, List.cons_append]

/-- Every element surviving a sweep in which at most one element is
removed satisfies `P`, provided the transformation's outputs satisfy `P`
and every non-removed element satisfies `P` as it stands (the element
skipped after the removal is kept untouched). -/
theorem jsSweep_safe {α : Type} (g : α → Option α) (P : α → Prop)
    (l : List α)
    (hcount : l.countP (fun x => (g x).isNone) ≤ 1)
    (himg : ∀ x ∈ l, ∀ y, g x = some y → P y)
    (hkeep : ∀ x ∈ l, (g x).isNone = false → P x) :
    ∀ y ∈ jsSweep g l, P y := by
  by_cases hex : ∃ x ∈ l, (g x).isNone = true
  · rcases hex with ⟨x, hxl, hxnone⟩
    have hgx : g x = none := Option.isNone_iff_eq_none.mp hxnone
    rcases List.append_of_mem hxl with ⟨l1, l2, rfl⟩
    have hxcnt : (x :: l2).countP (fun z => (g z).isNone) =
        l2.countP (fun z => (g z).isNone) + 1 := by
      rw [List.countP_cons]
      simp [hgx]
    rw [List.countP_append, hxcnt] at hcount
    have h1 : ∀ z ∈ l1, (g z).isNone = false := by
      intro z hz
      have hz0 : l1.countP (fun z => (g z).isNone) = 0 := by omega
      have hmem := List.countP_eq_zero.mp hz0 z hz
      cases hzz : g z with
      | none => rw [hzz] at hmem; exact absurd rfl hmem
      | some w => rfl
    have h2 : ∀ z ∈ l2, (g z).isNone = false := by
      intro z hz
      have hz0 : l2.countP (fun z => (g z).isNone) = 0 := by omega
      have hmem := List.countP_eq_zero.mp hz0 z hz
      cases hzz : g z with
      | none => rw [hzz] at hmem; exact absurd rfl hmem
      | some w => rfl
    have h1s : ∀ z ∈ l1, (g z).isSome = true :=
      fun z hz => isSome_of_isNone_false (h1 z hz)
    rw [jsSweep_append_all_some g l1 (x :: l2) h1s]
    intro y hy
    rcases List.mem_append.mp hy with hy | hy
    · rcases List.mem_filterMap.mp hy with ⟨z, hz, hgz⟩
      exact himg z (List.mem_append_left _ hz) y hgz
    · cases l2 with
      | nil =>
        rw [jsSweep_cons_none_nil hgx] at hy
        cases hy
      | cons z zs =>
        rw [jsSweep_cons_none_cons zs hgx] at hy
        rcases List.mem_cons.mp hy with hyz | hyz
        · subst hyz
          exact hkeep y (List.mem_append_right _
            (List.mem_cons_of_mem _ (List.Mem.head _))) (h2 y (List.Mem.head _))
        · have hzs : ∀ w ∈ zs, (g w).isSome = true :=
            fun w hw => isSome_of_isNone_false (h2 w (List.mem_cons_of_mem _ hw))
          rw [jsSweep_eq_filterMap g zs hzs] at hyz
          rcases List.mem_filterMap.mp hyz with ⟨w, hw, hgw⟩
          exact himg w (List.mem_append_right _
            (List.mem_cons_of_mem _ (List.mem_cons_of_mem _ hw))) y hgw
  · push_neg at hex
    have hall : ∀ x ∈ l, (g x).isSome = true := by
      intro x hx
      have hne := hex x hx
      cases hxx : g x with
      | none => rw [hxx] at hne; exact absurd rfl hne
      | some w => rfl
    rw [jsSweep_eq_filterMap g l hall]
    intro y hy
    rcases List.mem_filterMap.mp hy with ⟨x, hx, hgx⟩
    exact himg x hx y hgx

theorem cleanupService_isNone_iff (feats : List FeatureConfig) (s : HService) :
    (cleanupService feats s).isNone = true ↔
      s.getServiceId ∉ enabledServiceIds feats := by
  unfold cleanupService
  split
  case isTrue hmem => simp [hmem]
  case isFalse hmem => simp [hmem]

theorem cleanupService_eq_some (feats : List FeatureConfig) (s s' : HService)
    (hs : cleanupService feats s = some s') :
    s.getServiceId ∈ enabledServiceIds feats ∧
    s'.uuid = s.uuid ∧ s'.subtype = s.subtype ∧
    s'.characteristics = jsSweep
      (fun c => if c ∈ enabledCharsFor feats s.getServiceId then some c else none)
      s.characteristics := by
  unfold cleanupService at hs
  split at hs
  case isTrue hmem =>
    have heq := Option.some_injective _ hs
    exact ⟨hmem, by rw [← heq], by rw [← heq], by rw [← heq]⟩
  case isFalse hmem => exact Option.noConfusion hs

theorem cu_not_enabled (F2 : List FeatureConfig) (sid cu : String)
    (h1 : ∀ f ∈ F2, ¬(f.serviceId = sid ∧ f.charUUID = cu)) :
    cu ∉ enabledCharsFor F2 sid := by
  intro hmem
  rcases List.mem_map.mp hmem with ⟨f, hf, hfc⟩
  have hf2 := List.mem_filter.mp hf
  exact h1 f hf2.1 ⟨by simpa using hf2.2, hfc⟩

theorem cu_not_in_char_sweep (F2 : List FeatureConfig) (sid cu : String)
    (chars : List String)
    (hcu : cu ∉ enabledCharsFor F2 sid)
    (hcnt : chars.countP (fun c => c = cu) ≤ 1)
    (hen : ∀ c ∈ chars, c ≠ cu → c ∈ enabledCharsFor F2 sid) :
    cu ∉ jsSweep
      (fun c => if c ∈ enabledCharsFor F2 sid then some c else none) chars := by
  intro hmem
  refine absurd rfl (jsSweep_safe _ (fun c => c ≠ cu) chars ?_ ?_ ?_ cu hmem)
  · refine le_trans (List.countP_mono_left ?_) hcnt
    intro c hc hnone
    by_cases hccu : c = cu
    · simp [hccu]
    · have hcen := hen c hc hccu
      rw [if_pos hcen] at hnone
      exact absurd hnone (by simp)
  · intro c hc y hgy
    by_cases hcen : c ∈ enabledCharsFor F2 sid
    · rw [if_pos hcen] at hgy
      have hcy : c = y := Option.some_injective _ hgy
      subst hcy
      intro hccu
      subst hccu
      exact hcu hcen
    · rw [if_neg hcen] at hgy
      exact Option.noConfusion hgy
  · intro c hc hnone
    by_cases hcen : c ∈ enabledCharsFor F2 sid
    · intro hccu
      subst hccu
      exact hcu hcen
    · rw [if_neg hcen] at hnone
      exact absurd hnone (by simp)

theorem foldl_register_features (F : List FeatureConfig) :
    ∀ st : Engine × Accessory, (F.foldl register st).1.features = st.1.features := by
  induction F with
  | nil => intro st; rfl
  | cons f fs ih => intro st; rw [List.foldl_cons, ih, register_features]

/-- Claim C7: running the configuration pass with a Feature Table from
which one previously enabled attribute (service id `sid`,
characteristic `cu`, property key `gkey`) was removed leaves that
attribute absent: no surviving service with that id carries the
characteristic, and the key is absent from the Property Index, so it is
no longer polled.  The hypotheses describe the removal scenario: no
current binding names the removed attribute or its key, at most one
service (the removed attribute's own) is disabled, and within a shared
service only the removed characteristic is stale. -/
theorem reregistration_removes_attribute (F2 : List FeatureConfig)
    (acc : Accessory) (sid cu gkey : String)
    (h1 : ∀ f ∈ F2, ¬(f.serviceId = sid ∧ f.charUUID = cu))
    (hkey : ∀ f ∈ F2, f.key? ≠ some gkey)
    (ha : ∀ s ∈ (F2.foldl register (mkEngine F2, acc)).2.services,
      s.getServiceId = sid ∨ s.getServiceId ∈ enabledServiceIds F2)
    (hb : ((F2.foldl register (mkEngine F2, acc)).2.services.countP
      (fun s => s.getServiceId = sid)) ≤ 1)
    (hc : ∀ s ∈ (F2.foldl register (mkEngine F2, acc)).2.services,
      s.getServiceId = sid →
        s.characteristics.countP (fun c => c = cu) ≤ 1 ∧
        ∀ c ∈ s.characteristics, c ≠ cu → c ∈ enabledCharsFor F2 sid) :
    (∀ s ∈ (configureAccessory (mkEngine F2) acc).2.services,
      s.getServiceId = sid → cu ∉ s.characteristics) ∧
    gkey ∉ propKeys (configureAccessory (mkEngine F2) acc).1.props := by
  have hfe : (F2.foldl register (mkEngine F2, acc)).1.features = F2 :=
    foldl_register_features F2 (mkEngine F2, acc)
  have hsvc : (configureAccessory (mkEngine F2) acc).2 =
      cleanupAccessory (F2.foldl register (mkEngine F2, acc)).1.features
        (F2.foldl register (mkEngine F2, acc)).2 := rfl
  constructor
  · rw [hsvc, hfe]
    show ∀ s ∈ jsSweep (cleanupService F2)
      (F2.foldl register (mkEngine F2, acc)).2.services, _
    intro s' hs' hsid'
    by_cases hsen : sid ∈ enabledServiceIds F2
    · have hall : ∀ s ∈ (F2.foldl register (mkEngine F2, acc)).2.services,
          (cleanupService F2 s).isSome = true := by
        intro s hs
        have hid : s.getServiceId ∈ enabledServiceIds F2 := by
          rcases ha s hs with hid | hid
          · rw [hid]; exact hsen
          · exact hid
        unfold cleanupService
        rw [if_pos hid]
        rfl
      rw [jsSweep_eq_filterMap _ _ hall] at hs'
      rcases List.mem_filterMap.mp hs' with ⟨s, hs, hgs⟩
      rcases cleanupService_eq_some F2 s s' hgs with ⟨_, huu, hsub, hchars⟩
      have hids : s.getServiceId = sid := by
        rw [← hsid']
        show s.uuid ++ s.subtype = s'.uuid ++ s'.subtype
        rw [huu, hsub]
      rcases hc s hs hids with ⟨hcnt, hcen⟩
      rw [hchars, hids]
      exact cu_not_in_char_sweep F2 sid cu s.characteristics
        (cu_not_enabled F2 sid cu h1) hcnt hcen
    · refine absurd hsid'
        (jsSweep_safe (cleanupService F2) (fun s => s.getServiceId ≠ sid)
          _ ?_ ?_ ?_ s' hs')
      · refine le_trans (List.countP_mono_left ?_) hb
        intro s hs hnone
        have hnotmem := (cleanupService_isNone_iff F2 s).mp hnone
        rcases ha s hs with hid | hid
        · simp [hid]
        · exact absurd hid hnotmem
      · intro s hs y hgy
        rcases cleanupService_eq_some F2 s y hgy with ⟨hen, huu, hsub, _⟩
        intro hy
        apply hsen
        have hyid : y.getServiceId = s.getServiceId := by
          show y.uuid ++ y.subtype = s.uuid ++ s.subtype
          rw [huu, hsub]
        rw [hyid] at hy
        rw [hy] at hen
        exact hen
      · intro s hs hfalse hsidS
        have hen : s.getServiceId ∈ enabledServiceIds F2 := by
          by_contra hno
          have hnone := (cleanupService_isNone_iff F2 s).mpr hno
          rw [hfalse] at hnone
          exact Bool.noConfusion hnone
        rw [hsidS] at hen
        exact hsen hen
  · rw [configureAccessory_props]
    have hfeat : (mkEngine F2).features = F2 := rfl
    rw [hfeat]
    intro hmem
    rcases (foldl_register_propKeys F2 (mkEngine F2, acc) gkey).mp hmem with
      hmem0 | ⟨f, hf, _, hkf⟩
    · exact absurd hmem0 (by simp [mkEngine, propKeys])
    · exact hkey f hf hkf

/-- Witness for C7: in the concrete scenario the removed attribute's
key is no longer in the Property Index (and, per the theorem, no
surviving `SU2sub1` service carries `CU3`). -/
theorem reregistration_removes_attribute_witness :
    "temperature" ∉ propKeys
      ((configureAccessory (mkEngine exampleFeatures) exampleAccessory).1.props) :=
  (reregistration_removes_attribute exampleFeatures exampleAccessory
    "SU2sub1" "CU3" "temperature" (by decide) (by decide) (by decide)
    (by decide) (by decide)).2

end Humidifier
